import Mathlib

/-!
Verification of the NickCast stream relay (Go sources under `internal/server`,
`internal/NickServAuth` and `config`) against its natural-language
specification.  Byte values are modelled as `Nat`, byte strings as `List Nat`,
Go strings as `List Char`.  Each definition is a shallow embedding of the
function named in its doc comment; stateful handler code is embedded as
explicit state passing or as a step function over small trace alphabets, one
atomic (lock-protected or atomic-instruction) section per step.
-/

/-- Embeds the constant `maxRingBufferSize = 128 * 1024` (server.go line 21). -/
def maxRingBufferSize : Nat := 128 * 1024

/-- Embeds `copyLen := maxRingBufferSize - len(data); if copyLen < 0
then copyLen = 0` (server.go lines 228-231).  Go's `int` subtraction can go
negative before the clamp, mirrored here with an `Int` intermediate. -/
def goCopyLen (dataLen : Nat) : Nat :=
  if ((maxRingBufferSize : Int) - (dataLen : Int)) < 0 then 0
  else ((maxRingBufferSize : Int) - (dataLen : Int)).toNat

/-- Embeds the history-buffer step of `broadcast` (server.go lines 220-241).
`buf` is the current `ringBuffer` contents, `data` the chunk.
`ringBuffer.Bytes()[ringBuffer.Len()-copyLen:]` is
`buf.drop (buf.length - copyLen)`, and the final `ringBuffer.Write(data)`
appends the whole chunk unconditionally. -/
def ringAppend (buf data : List Nat) : List Nat :=
  if buf.length + data.length > maxRingBufferSize then
    (if buf.length > goCopyLen data.length then
       buf.drop (buf.length - goCopyLen data.length)
     else buf) ++ data
  else
    buf ++ data

/-- The running of the history buffer over a whole sequence of appended
chunks, starting (as `resetStreamState`, server.go line 59, does) from an
empty buffer. -/
def histRun (chunks : List (List Nat)) : List Nat :=
  chunks.foldl ringAppend []

lemma goCopyLen_eq (d : Nat) : goCopyLen d = maxRingBufferSize - d := by
  unfold goCopyLen
  split <;> omega

/-- Closed form of `ringAppend`: the Int clamp and the inner guard collapse
to a single truncated-subtraction drop. -/
lemma ringAppend_eq (buf data : List Nat) :
    ringAppend buf data =
      if maxRingBufferSize < buf.length + data.length then
        buf.drop (buf.length - (maxRingBufferSize - data.length)) ++ data
      else buf ++ data := by
  unfold ringAppend
  rw [goCopyLen_eq]
  by_cases h : maxRingBufferSize < buf.length + data.length
  · rw [if_pos h, if_pos h]
    by_cases h2 : buf.length > maxRingBufferSize - data.length
    · rw [if_pos h2]
    · rw [if_neg h2]
      have h0 : buf.length - (maxRingBufferSize - data.length) = 0 := by omega
      rw [h0, List.drop_zero]
  · rw [if_neg h, if_neg h]

/-- One append preserves the "buffer is the capacity-suffix of everything
ever appended" invariant, provided the chunk itself fits in the capacity. -/
lemma ringAppend_suffix (S data : List Nat)
    (hd : data.length ≤ maxRingBufferSize) :
    ringAppend (S.drop (S.length - maxRingBufferSize)) data
      = (S ++ data).drop (S.length + data.length - maxRingBufferSize) := by
  have hbuf : (S.drop (S.length - maxRingBufferSize)).length
      = S.length - (S.length - maxRingBufferSize) := List.length_drop _ _
  have hle : S.length + data.length - maxRingBufferSize ≤ S.length := by omega
  rw [ringAppend_eq, List.drop_append_of_le_length hle]
  by_cases h : maxRingBufferSize
      < (S.drop (S.length - maxRingBufferSize)).length + data.length
  · rw [if_pos h, List.drop_drop, hbuf]
    rw [hbuf] at h
    have e : S.length - maxRingBufferSize
        + ((S.length - (S.length - maxRingBufferSize))
            - (maxRingBufferSize - data.length))
        = S.length + data.length - maxRingBufferSize := by omega
    rw [e]
  · rw [if_neg h]
    rw [hbuf] at h
    have e : S.length - maxRingBufferSize
        = S.length + data.length - maxRingBufferSize := by omega
    rw [e]

/-- The history buffer after any chunk sequence (each chunk within capacity)
is the capacity-suffix of the concatenation of all appended bytes. -/
lemma histRun_aux (chunks : List (List Nat)) : ∀ S : List Nat,
    (∀ c ∈ chunks, c.length ≤ maxRingBufferSize) →
    List.foldl ringAppend (S.drop (S.length - maxRingBufferSize)) chunks
      = (S ++ chunks.flatten).drop
          ((S ++ chunks.flatten).length - maxRingBufferSize) := by
  induction chunks with
  | nil =>
    intro S _
    rw [List.foldl_nil, List.flatten_nil, List.append_nil]
  | cons c cs ih =>
    intro S h
    rw [List.foldl_cons, ringAppend_suffix S c (h c (by simp))]
    have step := ih (S ++ c) (fun x hx => h x (by simp [hx]))
    rw [List.length_append] at step
    rw [List.flatten_cons, ← List.append_assoc]
    exact step

/-- Suffix characterisation of `histRun` for chunk sequences whose every
chunk fits in the capacity. -/
lemma histRun_eq (chunks : List (List Nat))
    (h : ∀ c ∈ chunks, c.length ≤ maxRingBufferSize) :
    histRun chunks
      = chunks.flatten.drop (chunks.flatten.length - maxRingBufferSize) := by
  have step := histRun_aux chunks [] h
  rw [List.drop_nil] at step
  rw [List.nil_append] at step
  exact step

/-- C1 (amended): after any sequence of appends in which each single chunk
fits within the capacity (as is the case for the `1024`-byte reads that
`streamHandler` feeds to `broadcast`), the Recent-History Buffer length is
at most the 128 KB capacity and its contents are exactly the suffix of the
concatenation of all ever-appended bytes of length
`min(total_appended, capacity)`. -/
theorem ring_history_bound (chunks : List (List Nat))
    (h : ∀ c ∈ chunks, c.length ≤ maxRingBufferSize) :
    (histRun chunks).length ≤ maxRingBufferSize ∧
    (histRun chunks).length = min chunks.flatten.length maxRingBufferSize ∧
    histRun chunks
      = chunks.flatten.drop (chunks.flatten.length - maxRingBufferSize) := by
  have he := histRun_eq chunks h
  refine ⟨?_, ?_, he⟩
  · rw [he, List.length_drop]
    omega
  · rw [he, List.length_drop]
    omega

theorem ring_history_bound_witness :
    (∀ c ∈ ([[1, 2, 3], [4, 5]] : List (List Nat)),
        c.length ≤ maxRingBufferSize) ∧
    (histRun [[1, 2, 3], [4, 5]]).length ≤ maxRingBufferSize ∧
    (histRun [[1, 2, 3], [4, 5]]).length
      = min ([[1, 2, 3], [4, 5]] : List (List Nat)).flatten.length
          maxRingBufferSize ∧
    histRun [[1, 2, 3], [4, 5]]
      = ([[1, 2, 3], [4, 5]] : List (List Nat)).flatten.drop
          (([[1, 2, 3], [4, 5]] : List (List Nat)).flatten.length
            - maxRingBufferSize) := by
  have h : ∀ c ∈ ([[1, 2, 3], [4, 5]] : List (List Nat)),
      c.length ≤ maxRingBufferSize := by decide
  exact ⟨h, ring_history_bound _ h⟩

/-- C1 counterexample: when a single chunk alone exceeds the capacity,
`broadcast` trims the old buffer to nothing and then writes the whole chunk,
so the buffer holds the entire chunk (not just its tail) and its length
exceeds the capacity, refuting both the length bound and the
tail-of-the-chunk clause of the claim as stated. -/
theorem ring_oversized_chunk_counterexample :
    histRun [List.replicate (maxRingBufferSize + 1) 0]
      = List.replicate (maxRingBufferSize + 1) 0 ∧
    ¬ (histRun [List.replicate (maxRingBufferSize + 1) 0]).length
        ≤ maxRingBufferSize := by
  have hlen : (List.replicate (maxRingBufferSize + 1) (0 : Nat)).length
      = maxRingBufferSize + 1 := List.length_replicate _ _
  have h1 : histRun [List.replicate (maxRingBufferSize + 1) 0]
      = List.replicate (maxRingBufferSize + 1) 0 := by
    unfold histRun
    rw [List.foldl_cons, List.foldl_nil, ringAppend_eq]
    have hc : maxRingBufferSize
        < ([] : List Nat).length
          + (List.replicate (maxRingBufferSize + 1) (0 : Nat)).length := by
      rw [List.length_nil, hlen]
      omega
    rw [if_pos hc, List.drop_nil, List.nil_append]
  refine ⟨h1, ?_⟩
  rw [h1, hlen]
  omega

/-- Embeds `streamActive.CompareAndSwap(false, true)` (server.go line 74):
given the current flag, returns (whether the swap succeeded, new flag). -/
def casAcquire (flag : Bool) : Bool × Bool :=
  if flag then (false, flag) else (true, true)

/-- One publisher-connection event: an admission attempt (the CAS at
server.go line 74, answering 409 Conflict on failure, line 76) or the
release `streamActive.Store(false)` run by the active handler
(server.go lines 95, 105, 122). -/
inductive PubEvent
  | attempt
  | release
deriving DecidableEq

/-- Publisher-exclusivity state: the atomic `streamActive` flag and the
number of handlers currently admitted past the CAS and not yet released. -/
structure PubState where
  flag : Bool
  active : Nat
deriving DecidableEq

/-- Atomic step of the exclusivity protocol.  The second component is the
HTTP status written, if any (`some 409` on a conflicting attempt). -/
def pubStep (s : PubState) : PubEvent → PubState × Option Nat
  | .attempt =>
      if (casAcquire s.flag).1 then
        ({ flag := (casAcquire s.flag).2, active := s.active + 1 }, none)
      else
        ({ s with flag := (casAcquire s.flag).2 }, some 409)
  | .release => ({ flag := false, active := s.active - 1 }, none)

/-- Run of the exclusivity protocol from the initial idle state. -/
def runPub (evs : List PubEvent) : PubState :=
  evs.foldl (fun s e => (pubStep s e).1) { flag := false, active := 0 }

lemma pubStep_attempt_active (s : PubState) (h : s.flag = true) :
    pubStep s .attempt = (s, some 409) := by
  cases s with
  | mk flag active =>
    subst h
    rfl

lemma runPub_invariant (evs : List PubEvent) :
    (runPub evs).active = (if (runPub evs).flag then 1 else 0) := by
  suffices h : ∀ (l : List PubEvent) (s : PubState),
      s.active = (if s.flag then 1 else 0) →
      (l.foldl (fun s e => (pubStep s e).1) s).active
        = (if (l.foldl (fun s e => (pubStep s e).1) s).flag then 1 else 0) by
    exact h evs { flag := false, active := 0 } rfl
  intro l
  induction l with
  | nil => intro s hs; exact hs
  | cons e es ih =>
    intro s hs
    rw [List.foldl_cons]
    apply ih
    cases e with
    | attempt =>
      cases hf : s.flag with
      | false =>
        rw [hf] at hs
        simp [pubStep, casAcquire, hf] at hs ⊢
        exact hs
      | true =>
        rw [pubStep_attempt_active s hf]
        rw [hs]
    | release =>
      have hle : s.active ≤ 1 := by
        rw [hs]
        split <;> omega
      simp [pubStep]
      omega

/-- C2: for every interleaving of concurrent publisher-connect attempts and
releases (each handler's CAS and Store are atomic, so concurrency is
exactly the set of these event sequences), at most one publisher is
admitted to the Active state at a time, and an attempt made while the flag
is set receives 409 Conflict and changes no state. -/
theorem publisher_exclusivity (evs : List PubEvent) (s : PubState)
    (h : s.flag = true) :
    (runPub evs).active ≤ 1 ∧
    pubStep s .attempt = (s, some 409) := by
  constructor
  · rw [runPub_invariant evs]
    split <;> omega
  · exact pubStep_attempt_active s h

theorem publisher_exclusivity_witness :
    (runPub [PubEvent.attempt, PubEvent.attempt]).active ≤ 1 ∧
    pubStep { flag := true, active := 1 } .attempt
      = ({ flag := true, active := 1 }, some 409) :=
  publisher_exclusivity [PubEvent.attempt, PubEvent.attempt]
    { flag := true, active := 1 } rfl

/-- Embeds the listener-channel capacity `make(chan []byte, 100)`
(server.go line 177). -/
def chanCap : Nat := 100

/-- Shared state touched by `broadcast` and one joining listener:
the ring buffer, whether the listener's channel is in the `listeners` map
(`registerListener`, server.go line 178), the contents of the listener's
delivery channel, and the listener's catch-up snapshot
(`bufferedData := ringBuffer.Bytes()`, server.go line 183). -/
structure RelayState where
  ring : List Nat
  registered : Bool
  chan : List (List Nat)
  snap : Option (List Nat)
deriving DecidableEq

/-- Atomic sections of the join/broadcast interplay.  `broadcast` holds
`ringBufferMu` for the history append (server.go lines 220-241) and then,
separately, `listenersMu` for the fan-out (lines 243-254); `ringWrite` and
`fanoutOne` are those two sections for a single chunk.  `register` is the
listener's `registerListener` call (under `listenersMu`) and `snapshot` its
ring-buffer read (under `ringBufferMu`). -/
inductive RelayOp
  | ringWrite (c : List Nat)
  | fanoutOne (c : List Nat)
  | register
  | snapshot
deriving DecidableEq

/-- One interleaved atomic step (the non-blocking send drops the chunk when
the channel holds `chanCap` pending chunks, server.go lines 246-253). -/
def relayStep (s : RelayState) : RelayOp → RelayState
  | .ringWrite c => { s with ring := ringAppend s.ring c }
  | .fanoutOne c =>
      if s.registered then
        if s.chan.length < chanCap then { s with chan := s.chan ++ [c] } else s
      else s
  | .register => { s with registered := true }
  | .snapshot => { s with snap := some s.ring }

/-- The two-step trace `broadcast` executes for each published chunk,
in publish order. -/
def pubTrace : List (List Nat) → List RelayOp
  | [] => []
  | c :: cs => RelayOp.ringWrite c :: RelayOp.fanoutOne c :: pubTrace cs

/-- Session start: empty ring buffer, listener not yet registered. -/
def relayInit : RelayState :=
  { ring := [], registered := false, chan := [], snap := none }

def runRelay (ops : List RelayOp) : RelayState := ops.foldl relayStep relayInit

/-- The byte stream the listener writes out: the catch-up snapshot first
(server.go lines 186-195), then the delivered chunks in channel order
(lines 198-207). -/
def receivedBytes (s : RelayState) : List Nat :=
  s.snap.getD [] ++ s.chan.flatten

/-- Broadcasts before the listener registers only touch the ring buffer. -/
lemma relay_pre (cs : List (List Nat)) : ∀ s : RelayState,
    s.registered = false →
    List.foldl relayStep s (pubTrace cs)
      = { s with ring := cs.foldl ringAppend s.ring } := by
  induction cs with
  | nil =>
    intro s _
    rfl
  | cons c cs ih =>
    intro s h
    simp only [pubTrace, List.foldl_cons]
    have h2 : relayStep { s with ring := ringAppend s.ring c } (.fanoutOne c)
        = { s with ring := ringAppend s.ring c } := by
      simp [relayStep, h]
    have h1 : relayStep s (.ringWrite c)
        = { s with ring := ringAppend s.ring c } := rfl
    rw [h1, h2, ih { s with ring := ringAppend s.ring c } h]

/-- Broadcasts after the listener registers append each chunk to the ring
buffer and to the listener's channel, as long as the channel does not
overflow its capacity. -/
lemma relay_post (cs : List (List Nat)) : ∀ s : RelayState,
    s.registered = true →
    s.chan.length + cs.length ≤ chanCap →
    List.foldl relayStep s (pubTrace cs)
      = { s with ring := cs.foldl ringAppend s.ring, chan := s.chan ++ cs } := by
  induction cs with
  | nil =>
    intro s _ _
    simp only [pubTrace, List.foldl_nil, List.append_nil]
  | cons c cs ih =>
    intro s h hc
    simp only [pubTrace, List.foldl_cons]
    have h1 : relayStep s (.ringWrite c)
        = { s with ring := ringAppend s.ring c } := rfl
    have h2 : relayStep { s with ring := ringAppend s.ring c } (.fanoutOne c)
        = { s with ring := ringAppend s.ring c, chan := s.chan ++ [c] } := by
      have hlt : s.chan.length < chanCap := by
        simp only [List.length_cons] at hc
        omega
      simp [relayStep, h, hlt]
    have hc2 : (s.chan ++ [c]).length + cs.length ≤ chanCap := by
      simp only [List.length_append, List.length_cons, List.length_nil] at hc ⊢
      omega
    rw [h1, h2,
      ih { s with ring := ringAppend s.ring c, chan := s.chan ++ [c] } h hc2]
    simp only [List.append_assoc, List.singleton_append]

/-- C3 (amended): a subscriber that joins after the session has produced at
least `capacity` bytes receives the most recent `capacity` bytes as of its
ring-buffer snapshot followed by every chunk published after that snapshot,
with no gap — provided no `broadcast` interleaves between its registration
and its snapshot (the race-free interleavings); chunks published inside
that window are duplicated, see the counterexample. -/
theorem catchup_race_free (pre post : List (List Nat))
    (hpre : ∀ c ∈ pre, c.length ≤ maxRingBufferSize)
    (hlen : maxRingBufferSize ≤ pre.flatten.length)
    (hpost : post.length ≤ chanCap) :
    receivedBytes (runRelay (pubTrace pre
        ++ RelayOp.register :: RelayOp.snapshot :: pubTrace post))
      = pre.flatten.drop (pre.flatten.length - maxRingBufferSize)
        ++ post.flatten ∧
    (pre.flatten.drop (pre.flatten.length - maxRingBufferSize)).length
      = maxRingBufferSize := by
  have h1 : List.foldl relayStep relayInit (pubTrace pre)
      = (⟨pre.foldl ringAppend [], false, [], none⟩ : RelayState) :=
    relay_pre pre relayInit rfl
  have h2 : relayStep ⟨pre.foldl ringAppend [], false, [], none⟩
        RelayOp.register
      = (⟨pre.foldl ringAppend [], true, [], none⟩ : RelayState) := rfl
  have h3 : relayStep ⟨pre.foldl ringAppend [], true, [], none⟩
        RelayOp.snapshot
      = (⟨pre.foldl ringAppend [], true, [],
          some (pre.foldl ringAppend [])⟩ : RelayState) := rfl
  have hc : (([] : List (List Nat))).length + post.length ≤ chanCap := by
    simpa using hpost
  have h4 : List.foldl relayStep
        ⟨pre.foldl ringAppend [], true, [], some (pre.foldl ringAppend [])⟩
        (pubTrace post)
      = (⟨post.foldl ringAppend (pre.foldl ringAppend []), true, [] ++ post,
          some (pre.foldl ringAppend [])⟩ : RelayState) :=
    relay_post post
      ⟨pre.foldl ringAppend [], true, [], some (pre.foldl ringAppend [])⟩
      rfl hc
  have hrun : runRelay (pubTrace pre
        ++ RelayOp.register :: RelayOp.snapshot :: pubTrace post)
      = (⟨post.foldl ringAppend (pre.foldl ringAppend []), true, [] ++ post,
          some (pre.foldl ringAppend [])⟩ : RelayState) := by
    rw [runRelay, List.foldl_append, h1, List.foldl_cons, h2,
      List.foldl_cons, h3, h4]
  have hsnap : pre.foldl ringAppend []
      = pre.flatten.drop (pre.flatten.length - maxRingBufferSize) :=
    histRun_eq pre hpre
  constructor
  · rw [hrun, receivedBytes]
    simp only [Option.getD_some, List.nil_append]
    rw [hsnap]
  · rw [List.length_drop]
    omega

theorem catchup_race_free_witness :
    (∀ c ∈ [List.replicate maxRingBufferSize (0 : Nat)],
        c.length ≤ maxRingBufferSize) ∧
    maxRingBufferSize
      ≤ ([List.replicate maxRingBufferSize (0 : Nat)]).flatten.length ∧
    ([[1]] : List (List Nat)).length ≤ chanCap ∧
    receivedBytes (runRelay (pubTrace [List.replicate maxRingBufferSize 0]
        ++ RelayOp.register :: RelayOp.snapshot :: pubTrace [[1]]))
      = ([List.replicate maxRingBufferSize (0 : Nat)]).flatten.drop
          (([List.replicate maxRingBufferSize (0 : Nat)]).flatten.length
            - maxRingBufferSize)
        ++ ([[1]] : List (List Nat)).flatten := by
  have hpre : ∀ c ∈ [List.replicate maxRingBufferSize (0 : Nat)],
      c.length ≤ maxRingBufferSize := by
    intro c hc
    rw [List.mem_singleton] at hc
    rw [hc, List.length_replicate]
  have hlen : maxRingBufferSize
      ≤ ([List.replicate maxRingBufferSize (0 : Nat)]).flatten.length := by
    rw [List.flatten_cons, List.flatten_nil, List.append_nil,
      List.length_replicate]
  have hpost : ([[1]] : List (List Nat)).length ≤ chanCap := by decide
  exact ⟨hpre, hlen, hpost,
    (catchup_race_free [List.replicate maxRingBufferSize 0] [[1]]
      hpre hlen hpost).1⟩

/-- The interleaving refuting C3 as stated: the session produces exactly
`capacity` bytes, the subscriber registers, one more chunk `[1,2,3]` is
broadcast (history append and fan-out both complete), and only then does
the subscriber take its ring-buffer snapshot. -/
def c3trace : List RelayOp :=
  [RelayOp.ringWrite (List.replicate maxRingBufferSize 0),
   RelayOp.fanoutOne (List.replicate maxRingBufferSize 0),
   RelayOp.register,
   RelayOp.ringWrite [1, 2, 3],
   RelayOp.fanoutOne [1, 2, 3],
   RelayOp.snapshot]

/-- C3 counterexample: in the interleaving `c3trace` the subscriber joins
after `capacity` bytes were produced, yet the boundary chunk `[1,2,3]` is
received twice (once inside the snapshot, once from the delivery channel),
so the received stream is not "the most recent `capacity` bytes at join
followed by the subsequently published chunks with no duplication". -/
theorem catchup_boundary_duplication :
    (receivedBytes (runRelay c3trace)).count 1 = 2 ∧
    (List.replicate maxRingBufferSize (0 : Nat) ++ [1, 2, 3]).count 1 = 1 ∧
    receivedBytes (runRelay c3trace)
      ≠ List.replicate maxRingBufferSize (0 : Nat) ++ [1, 2, 3] := by
  have h0 : ringAppend [] (List.replicate maxRingBufferSize 0)
      = List.replicate maxRingBufferSize 0 := by
    rw [ringAppend_eq]
    have hb : ¬ maxRingBufferSize < ([] : List Nat).length
        + (List.replicate maxRingBufferSize (0 : Nat)).length := by
      rw [List.length_nil, List.length_replicate]
      omega
    rw [if_neg hb, List.nil_append]
  have h2 : ringAppend (List.replicate maxRingBufferSize 0) [1, 2, 3]
      = List.replicate (maxRingBufferSize - 3) 0 ++ [1, 2, 3] := by
    rw [ringAppend_eq]
    have h3 : ([1, 2, 3] : List Nat).length = 3 := rfl
    have hb : maxRingBufferSize
        < (List.replicate maxRingBufferSize (0 : Nat)).length
          + ([1, 2, 3] : List Nat).length := by
      rw [List.length_replicate, h3]
      omega
    rw [if_pos hb]
    have hd : (List.replicate maxRingBufferSize (0 : Nat)).length
        - (maxRingBufferSize - ([1, 2, 3] : List Nat).length) = 3 := by
      have hval : maxRingBufferSize = 131072 := rfl
      rw [List.length_replicate, h3]
      omega
    rw [hd, List.drop_replicate]
  have hrun : runRelay c3trace
      = (⟨List.replicate (maxRingBufferSize - 3) 0 ++ [1, 2, 3], true,
          [[1, 2, 3]],
          some (List.replicate (maxRingBufferSize - 3) 0 ++ [1, 2, 3])⟩
          : RelayState) := by
    have s1 : relayStep relayInit
        (RelayOp.ringWrite (List.replicate maxRingBufferSize 0))
        = (⟨List.replicate maxRingBufferSize 0, false, [], none⟩
            : RelayState) := by
      simp only [relayStep, relayInit]
      rw [h0]
    have s2 : relayStep ⟨List.replicate maxRingBufferSize 0, false, [], none⟩
        (RelayOp.fanoutOne (List.replicate maxRingBufferSize 0))
        = (⟨List.replicate maxRingBufferSize 0, false, [], none⟩
            : RelayState) := rfl
    have s3 : relayStep ⟨List.replicate maxRingBufferSize 0, false, [], none⟩
        RelayOp.register
        = (⟨List.replicate maxRingBufferSize 0, true, [], none⟩
            : RelayState) := rfl
    have s4 : relayStep ⟨List.replicate maxRingBufferSize 0, true, [], none⟩
        (RelayOp.ringWrite [1, 2, 3])
        = (⟨List.replicate (maxRingBufferSize - 3) 0 ++ [1, 2, 3], true,
            [], none⟩ : RelayState) := by
      simp only [relayStep]
      rw [h2]
    have s5 : relayStep
        ⟨List.replicate (maxRingBufferSize - 3) 0 ++ [1, 2, 3], true,
          [], none⟩
        (RelayOp.fanoutOne [1, 2, 3])
        = (⟨List.replicate (maxRingBufferSize - 3) 0 ++ [1, 2, 3], true,
            [[1, 2, 3]], none⟩ : RelayState) := by
      simp only [relayStep]
      norm_num [chanCap]
    have s6 : relayStep
        ⟨List.replicate (maxRingBufferSize - 3) 0 ++ [1, 2, 3], true,
          [[1, 2, 3]], none⟩
        RelayOp.snapshot
        = (⟨List.replicate (maxRingBufferSize - 3) 0 ++ [1, 2, 3], true,
            [[1, 2, 3]],
            some (List.replicate (maxRingBufferSize - 3) 0 ++ [1, 2, 3])⟩
            : RelayState) := rfl
    rw [runRelay, c3trace, List.foldl_cons, s1, List.foldl_cons, s2,
      List.foldl_cons, s3, List.foldl_cons, s4, List.foldl_cons, s5,
      List.foldl_cons, s6, List.foldl_nil]
  have hrecv : receivedBytes (runRelay c3trace)
      = (List.replicate (maxRingBufferSize - 3) 0 ++ [1, 2, 3])
        ++ [1, 2, 3] := by
    rw [hrun, receivedBytes]
    simp only [Option.getD_some, List.flatten_cons, List.flatten_nil,
      List.append_nil]
  have hcnt : (receivedBytes (runRelay c3trace)).count 1 = 2 := by
    rw [hrecv]
    simp [List.count_append, List.count_replicate]
  have hcnt2 : (List.replicate maxRingBufferSize (0 : Nat)
      ++ [1, 2, 3]).count 1 = 1 := by
    simp [List.count_append, List.count_replicate]
  refine ⟨hcnt, hcnt2, ?_⟩
  intro heq
  rw [heq, hcnt2] at hcnt
  exact absurd hcnt (by omega)

/-- Session-identity state for the cancellation token and first-bytes gate.
`ctxId` names the current `streamCtx`, `gateId` the current `firstData`
channel; `nextFresh` supplies identities for newly allocated ones.
`capturedCtx` is the listener's local `currentStreamCtx` (server.go line
148) and `usedGate` records which gate object the listener's select
(line 153) ends up waiting on. -/
structure GateState where
  ctxId : Nat
  gateId : Nat
  nextFresh : Nat
  capturedCtx : Option Nat
  usedGate : Option Nat
deriving DecidableEq

/-- Session transitions touching the token/gate pair: `reset` is
`resetStreamState` (server.go lines 54-70: fresh `firstData`, fresh
`streamCtx`); `newCtx` is the token swap on publisher admission (lines
112-117, which replaces the token but not the gate); `capture` is the
listener copying `streamCtx` under `streamCtxMu` (lines 147-149);
`waitSelect` is the listener's select entering its wait (lines 152-164),
whose first-bytes case reads the global `firstData` variable at that
moment. -/
inductive GateEv
  | reset
  | newCtx
  | capture
  | waitSelect
deriving DecidableEq

def gateStep (s : GateState) : GateEv → GateState
  | .reset =>
      ⟨s.nextFresh + 1, s.nextFresh, s.nextFresh + 2, s.capturedCtx,
        s.usedGate⟩
  | .newCtx =>
      ⟨s.nextFresh, s.gateId, s.nextFresh + 1, s.capturedCtx, s.usedGate⟩
  | .capture => ⟨s.ctxId, s.gateId, s.nextFresh, some s.ctxId, s.usedGate⟩
  | .waitSelect =>
      ⟨s.ctxId, s.gateId, s.nextFresh, s.capturedCtx, some s.gateId⟩

def gateInit : GateState := ⟨0, 1, 2, none, none⟩

def runGate (evs : List GateEv) : GateState := evs.foldl gateStep gateInit

/-- Runs containing no `capture` leave the listener's captured token
untouched. -/
lemma gateRun_preserves_captured (evs : List GateEv) : ∀ s : GateState,
    GateEv.capture ∉ evs →
    (evs.foldl gateStep s).capturedCtx = s.capturedCtx := by
  induction evs with
  | nil =>
    intro s _
    rfl
  | cons e es ih =>
    intro s h
    have he : e ≠ GateEv.capture := fun hh =>
      h (hh ▸ List.mem_cons_self _ _)
    rw [List.foldl_cons, ih _ (fun hm => h (List.mem_cons_of_mem _ hm))]
    cases e with
    | reset => rfl
    | newCtx => rfl
    | capture => exact absurd rfl he
    | waitSelect => rfl

/-- C4 (amended): the listener snapshots the cancellation token at
admission — after its `capture`, no later session transition changes the
token it holds, so it is only ever cancelled through the session it joined
— but the first-bytes gate is not captured: when the listener's select
runs, it waits on whatever gate is current at that moment, which after an
intervening session reset is a later session's gate (see the
counterexample). -/
theorem listener_session_snapshot (pre evs : List GateEv)
    (h : GateEv.capture ∉ evs) :
    (runGate (pre ++ GateEv.capture :: evs)).capturedCtx
      = some ((runGate pre).ctxId) ∧
    (runGate ((pre ++ GateEv.capture :: evs) ++ [GateEv.waitSelect])).usedGate
      = some ((runGate (pre ++ GateEv.capture :: evs)).gateId) := by
  constructor
  · rw [runGate, List.foldl_append, List.foldl_cons,
      gateRun_preserves_captured evs _ h]
    rfl
  · rw [runGate, runGate, List.foldl_append]
    rfl

theorem listener_session_snapshot_witness :
    GateEv.capture ∉ [GateEv.reset] ∧
    (runGate ([] ++ GateEv.capture :: [GateEv.reset])).capturedCtx
      = some ((runGate []).ctxId) ∧
    (runGate (([] ++ GateEv.capture :: [GateEv.reset])
        ++ [GateEv.waitSelect])).usedGate
      = some ((runGate ([] ++ GateEv.capture :: [GateEv.reset])).gateId) := by
  have h : GateEv.capture ∉ [GateEv.reset] := by decide
  exact ⟨h, (listener_session_snapshot [] [GateEv.reset] h).1,
    (listener_session_snapshot [] [GateEv.reset] h).2⟩

/-- C4 counterexample: the listener captures session 0's token (gate `1` is
current at that admission), the session then resets (installing gate `2`,
token `3`), and only then does the listener's select run: it waits on gate
`2` — a later session's first-bytes gate — refuting the claim that the gate
is captured at admission time and that the subscriber can only be woken by
the gate of the session it joined under. -/
theorem listener_gate_not_captured :
    (runGate [GateEv.capture]).gateId = 1 ∧
    (runGate [GateEv.capture, GateEv.reset, GateEv.waitSelect]).capturedCtx
      = some 0 ∧
    (runGate [GateEv.capture, GateEv.reset, GateEv.waitSelect]).usedGate
      = some 2 ∧
    (2 : Nat) ≠ 1 := by
  refine ⟨rfl, rfl, rfl, by omega⟩

/-- Embeds the non-blocking send of `broadcast` for one listener channel
(server.go lines 246-253): `select { case ch <- data: default: }` on a
channel of capacity `chanCap` appends when there is room and drops the
chunk otherwise. -/
def sendNonBlocking (ch : List (List Nat)) (c : List Nat) :
    List (List Nat) :=
  if ch.length < chanCap then ch ++ [c] else ch

/-- Embeds the fan-out loop of `broadcast` (server.go lines 243-254): one
non-blocking send of the chunk to every registered listener channel. -/
def fanout (chans : List (List (List Nat))) (c : List Nat) :
    List (List (List Nat)) :=
  chans.map (fun ch => sendNonBlocking ch c)

/-- When no channel would overflow, a sequence of broadcasts delivers every
chunk to every channel, in publish order. -/
lemma fanout_all (cs : List (List Nat)) : ∀ chans : List (List (List Nat)),
    (∀ ch ∈ chans, ch.length + cs.length ≤ chanCap) →
    cs.foldl fanout chans = chans.map (fun ch => ch ++ cs) := by
  induction cs with
  | nil =>
    intro chans _
    rw [List.foldl_nil]
    have he : (fun ch : List (List Nat) => ch ++ ([] : List (List Nat)))
        = fun ch => ch := by
      funext ch
      rw [List.append_nil]
    rw [he, List.map_id']
  | cons c cs ih =>
    intro chans h
    rw [List.foldl_cons]
    have hstep : fanout chans c = chans.map (fun ch => ch ++ [c]) := by
      unfold fanout
      apply List.map_congr_left
      intro ch hch
      unfold sendNonBlocking
      have hlt : ch.length < chanCap := by
        have := h ch hch
        rw [List.length_cons] at this
        omega
      rw [if_pos hlt]
    have hnew : ∀ ch2 ∈ chans.map (fun ch => ch ++ [c]),
        ch2.length + cs.length ≤ chanCap := by
      intro ch2 hch2
      obtain ⟨ch, hch, rfl⟩ := List.mem_map.1 hch2
      have := h ch hch
      rw [List.length_cons] at this
      rw [List.length_append, List.length_cons, List.length_nil]
      omega
    rw [hstep, ih (chans.map fun ch => ch ++ [c]) hnew, List.map_map]
    have hcomp : ((fun ch : List (List Nat) => ch ++ cs)
        ∘ fun ch => ch ++ [c]) = fun ch => ch ++ c :: cs := by
      funext ch
      show (ch ++ [c]) ++ cs = ch ++ c :: cs
      rw [List.append_assoc, List.singleton_append]
    rw [hcomp]

/-- A full channel drops the chunk, and the other channels are served
exactly as they would be without it. -/
lemma fanout_isolation (pre post : List (List (List Nat)))
    (full : List (List Nat)) (c : List Nat) (h : chanCap ≤ full.length) :
    fanout (pre ++ full :: post) c = fanout pre c ++ full :: fanout post c := by
  unfold fanout
  rw [List.map_append, List.map_cons]
  have hfull : sendNonBlocking full c = full := by
    unfold sendNonBlocking
    rw [if_neg (by omega)]
  rw [hfull]

/-- C5: when every registered channel has room for all of them, a sequence
of published chunks is delivered to every channel in publish order; and a
channel that is full has the chunk dropped for it while every other channel
is served unchanged — `fanout` is a total function of the prior state, so
the full channel can not block or delay the publish call. -/
theorem broadcast_fanout (chans : List (List (List Nat)))
    (cs : List (List Nat))
    (h : ∀ ch ∈ chans, ch.length + cs.length ≤ chanCap) :
    cs.foldl fanout chans = chans.map (fun ch => ch ++ cs) ∧
    ∀ (pre post : List (List (List Nat))) (full : List (List Nat))
      (c : List Nat), chanCap ≤ full.length →
      fanout (pre ++ full :: post) c
        = fanout pre c ++ full :: fanout post c :=
  ⟨fanout_all cs chans h,
    fun pre post full c hf => fanout_isolation pre post full c hf⟩

theorem broadcast_fanout_witness :
    (∀ ch ∈ ([[], [[9]]] : List (List (List Nat))),
        ch.length + ([[1], [2]] : List (List Nat)).length ≤ chanCap) ∧
    ([[1], [2]] : List (List Nat)).foldl fanout [[], [[9]]]
      = ([[], [[9]]] : List (List (List Nat))).map
          (fun ch => ch ++ [[1], [2]]) ∧
    chanCap ≤ (List.replicate chanCap ([] : List Nat)).length ∧
    fanout ([] ++ List.replicate chanCap ([] : List Nat) :: [[[7]]]) [5]
      = fanout [] [5]
        ++ List.replicate chanCap ([] : List Nat) :: fanout [[[7]]] [5] := by
  have h : ∀ ch ∈ ([[], [[9]]] : List (List (List Nat))),
      ch.length + ([[1], [2]] : List (List Nat)).length ≤ chanCap := by
    decide
  have hf : chanCap ≤ (List.replicate chanCap ([] : List Nat)).length := by
    rw [List.length_replicate]
  have main := broadcast_fanout [[], [[9]]] [[1], [2]] h
  exact ⟨h, main.1, hf,
    main.2 [] [[[7]]] (List.replicate chanCap []) [5] hf⟩

/-- Server-side session state relevant to publisher-session claims:
`streamActive` is the atomic flag, `listeners` the ids of registered
listener channels, `closedChans` the ids of channels that have been closed,
`ctxGen` the identity of the current `streamCtx` (fresh identities count
up), `cancelled` the identities of contexts whose cancel function has been
called, and `gateFired` whether the current `firstData` gate has been
closed. -/
structure SrvState where
  streamActive : Bool
  listeners : List Nat
  closedChans : List Nat
  ctxGen : Nat
  cancelled : List Nat
  gateFired : Bool
deriving DecidableEq

/-- Embeds `clearListeners` (server.go lines 275-283): closes every
registered channel and empties the registry. -/
def clearListeners (s : SrvState) : SrvState :=
  { s with closedChans := s.closedChans ++ s.listeners, listeners := [] }

/-- Embeds `resetStreamState` (server.go lines 54-70): fresh unfired
`firstData` gate, cancel the current context, install a fresh one (the
ring-buffer replacement on line 59 is covered by `histRun` starting from
the empty buffer). -/
def resetStreamState (s : SrvState) : SrvState :=
  { s with gateFired := false,
           cancelled := s.ctxGen :: s.cancelled,
           ctxGen := s.ctxGen + 1 }

/-- Embeds the deferred cleanup of `streamHandler` (server.go lines
120-126): `streamActive.Store(false)`, `streamCancelFn()`,
`clearListeners()`, `resetStreamState()`. -/
def endSession (s : SrvState) : SrvState :=
  resetStreamState (clearListeners
    { s with streamActive := false, cancelled := s.ctxGen :: s.cancelled })

/-- The three events that can wake `listenHandler` from its admission
select (server.go lines 152-164): the first-bytes gate fires, the
requesting client goes away, or the captured stream context is cancelled. -/
inductive Wake
  | gateFired
  | clientGone
  | ctxDone
deriving DecidableEq

/-- What `listenHandler` answers before entering the delivery loop. -/
inductive ListenResp
  | serviceUnavailable
  | admitted
  | dropped
deriving DecidableEq

/-- Embeds the admission phase of `listenHandler` (server.go lines
152-171): a client disconnect returns without a response, a cancelled
stream context answers 503, and a fired gate admits the listener only if
`streamActive.Load()` is still true, answering 503 otherwise. -/
def listenAdmission (w : Wake) (active : Bool) : ListenResp :=
  match w with
  | .clientGone => .dropped
  | .ctxDone => .serviceUnavailable
  | .gateFired => if active then .admitted else .serviceUnavailable

/-- C6: after the publisher's deferred cleanup runs, (a) every channel that
was registered has been closed and the registry is empty, and the context
those listeners captured has been cancelled (so each listener's delivery
loop has its session-cancellation exit enabled), (b) the exclusivity flag
is released and a fresh CAS succeeds, and (c) the new gate is unfired and,
while no new publisher is active, every wake of a new subscriber is
answered with 503 Service Unavailable or, for a vanished client, nothing —
never an admission. -/
theorem session_reset (s : SrvState) :
    (∀ ch ∈ s.listeners, ch ∈ (endSession s).closedChans) ∧
    (endSession s).listeners = [] ∧
    s.ctxGen ∈ (endSession s).cancelled ∧
    (endSession s).streamActive = false ∧
    (casAcquire (endSession s).streamActive).1 = true ∧
    (endSession s).gateFired = false ∧
    (∀ w, listenAdmission w (endSession s).streamActive
      ≠ ListenResp.admitted) ∧
    listenAdmission Wake.ctxDone (endSession s).streamActive
      = ListenResp.serviceUnavailable ∧
    listenAdmission Wake.gateFired (endSession s).streamActive
      = ListenResp.serviceUnavailable := by
  have he : endSession s
      = (⟨false, [], s.closedChans ++ s.listeners, s.ctxGen + 1,
          s.ctxGen :: s.ctxGen :: s.cancelled, false⟩ : SrvState) := rfl
  rw [he]
  refine ⟨?_, rfl, ?_, rfl, rfl, rfl, ?_, rfl, rfl⟩
  · intro ch hch
    exact List.mem_append_right _ hch
  · exact List.mem_cons_self _ _
  · intro w
    cases w with
    | gateFired => exact fun hc => ListenResp.noConfusion hc
    | clientGone => exact fun hc => ListenResp.noConfusion hc
    | ctxDone => exact fun hc => ListenResp.noConfusion hc

theorem session_reset_witness :
    (5 : Nat) ∈ (endSession ⟨true, [5, 6], [], 3, [0], true⟩).closedChans ∧
    (endSession ⟨true, [5, 6], [], 3, [0], true⟩).listeners = [] ∧
    (3 : Nat) ∈ (endSession ⟨true, [5, 6], [], 3, [0], true⟩).cancelled ∧
    (endSession ⟨true, [5, 6], [], 3, [0], true⟩).streamActive = false ∧
    (casAcquire
      (endSession ⟨true, [5, 6], [], 3, [0], true⟩).streamActive).1 = true ∧
    (endSession ⟨true, [5, 6], [], 3, [0], true⟩).gateFired = false ∧
    listenAdmission Wake.gateFired
        (endSession ⟨true, [5, 6], [], 3, [0], true⟩).streamActive
      ≠ ListenResp.admitted := by
  have h := session_reset ⟨true, [5, 6], [], 3, [0], true⟩
  exact ⟨h.1 5 (by decide), h.2.1, h.2.2.1, h.2.2.2.1, h.2.2.2.2.1,
    h.2.2.2.2.2.1, h.2.2.2.2.2.2.1 Wake.gateFired⟩

/-- Embeds `strings.SplitN(s, sep, 2)` as used for credential splitting:
`some (before, after)` splits around the first occurrence of `sep` (the
remainder may contain further separators); `none` when `sep` does not
occur, which is Go's `len(parts) != 2` rejection case. -/
def splitFirst (sep : Char) : List Char → Option (List Char × List Char)
  | [] => none
  | c :: rest =>
      if c = sep then some ([], rest)
      else
        match splitFirst sep rest with
        | some (a, b) => some (c :: a, b)
        | none => none

/-- Embeds `parseBasicAuth` (server.go lines 285-302).  The argument is the
base64-decoded payload of the `Authorization: Basic` header; `none` models
a missing header, a non-Basic scheme, or a base64 decode failure (lines
286-294), all of which return `ok = false` before the split.  The payload
split on the first colon is lines 296-301. -/
def parseBasicAuth (decodedPayload : Option (List Char)) :
    Option (List Char × List Char) :=
  match decodedPayload with
  | none => none
  | some payload => splitFirst ':' payload

/-- Embeds the credential extraction of `streamHandler` (server.go lines
80-98): Basic credentials if present; otherwise the `X-Source-Password`
header, falling back to the `password` query parameter when the header is
empty (`Get` returns the empty string for an absent header), split as
`name:secret` on the first colon; no colon or no non-empty value means no
credential pair. -/
def extractCreds (basic : Option (List Char × List Char))
    (xsp qp : List Char) : Option (List Char × List Char) :=
  match basic with
  | some c => some c
  | none =>
      let sourcePass := if xsp = [] then qp else xsp
      if sourcePass = [] then none
      else splitFirst ':' sourcePass

/-- The responses the ingest handler can give in its admission phase. -/
inductive StreamResp
  | conflict
  | unauthorized
  | streaming
deriving DecidableEq

/-- Embeds the admission phase of `streamHandler` (server.go lines 72-117)
as a function of the session state, the request's credentials and the
verification collaborator's verdict (`authOk` is `err == nil && valid` of
line 102).  A failed CAS answers 409; a missing credential pair or a
rejected verification answers 401 after `streamActive.Store(false)` (the
transient flag acquisition and release collapse to the returned state);
success installs a fresh stream context (lines 112-117) and proceeds to
the read loop. -/
def streamHandlerRun (s : SrvState) (basicPayload : Option (List Char))
    (xsp qp : List Char) (authOk : Bool) : SrvState × StreamResp :=
  if s.streamActive then (s, .conflict)
  else
    match extractCreds (parseBasicAuth basicPayload) xsp qp with
    | none => ({ s with streamActive := false }, .unauthorized)
    | some _ =>
        if authOk then
          ({ s with streamActive := true,
                    cancelled := s.ctxGen :: s.cancelled,
                    ctxGen := s.ctxGen + 1 }, .streaming)
        else ({ s with streamActive := false }, .unauthorized)

/-- C7: an ingest request that yields no name/secret pair, or whose
credentials the verification collaborator rejects (or whose verification
errs), is answered 401 Unauthorized with the exclusivity flag released and
no other session state changed: starting from an idle state, the handler
returns exactly that state. -/
theorem unauthorized_no_state_change (s : SrvState)
    (basicPayload : Option (List Char)) (xsp qp : List Char) (authOk : Bool)
    (hidle : s.streamActive = false)
    (hrej : extractCreds (parseBasicAuth basicPayload) xsp qp = none
      ∨ authOk = false) :
    streamHandlerRun s basicPayload xsp qp authOk
      = (s, StreamResp.unauthorized) := by
  have hs : ({ s with streamActive := false } : SrvState) = s := by
    cases s with
    | mk sa l cc cg cn gf =>
      have : sa = false := hidle
      rw [this]
  rcases hrej with h | h
  · simp [streamHandlerRun, hidle, h, hs]
  · cases hext : extractCreds (parseBasicAuth basicPayload) xsp qp with
    | none => simp [streamHandlerRun, hidle, hext, hs]
    | some cred => simp [streamHandlerRun, hidle, hext, h, hs]

theorem unauthorized_no_state_change_witness :
    (⟨false, [], [], 0, [], false⟩ : SrvState).streamActive = false ∧
    extractCreds (parseBasicAuth none) [] [] = none ∧
    streamHandlerRun ⟨false, [], [], 0, [], false⟩ none [] [] true
      = (⟨false, [], [], 0, [], false⟩, StreamResp.unauthorized) :=
  ⟨rfl, rfl,
    unauthorized_no_state_change ⟨false, [], [], 0, [], false⟩ none [] []
      true rfl (Or.inl rfl)⟩

/-- Splitting a payload whose name part is colon-free around its first
colon recovers the name and the (possibly colon-containing) secret. -/
lemma splitFirst_name_secret (secret : List Char) :
    ∀ name : List Char, (':' : Char) ∉ name →
    splitFirst ':' (name ++ ':' :: secret) = some (name, secret) := by
  intro name
  induction name with
  | nil =>
    intro _
    rw [List.nil_append]
    unfold splitFirst
    rw [if_pos rfl]
  | cons a as ih =>
    intro hn
    have ha : ¬ a = ':' := fun hh => hn (hh ▸ List.mem_cons_self _ _)
    rw [List.cons_append]
    unfold splitFirst
    rw [if_neg ha, ih (fun hm => hn (List.mem_cons_of_mem _ hm))]

/-- A value with no colon produces no credential pair. -/
lemma splitFirst_no_sep (sep : Char) :
    ∀ s : List Char, sep ∉ s → splitFirst sep s = none := by
  intro s
  induction s with
  | nil =>
    intro _
    rfl
  | cons a as ih =>
    intro hn
    have ha : ¬ a = sep := fun hh => hn (hh ▸ List.mem_cons_self _ _)
    unfold splitFirst
    rw [if_neg ha, ih (fun hm => hn (List.mem_cons_of_mem _ hm))]

/-- C10: credential extraction splits on the first colon only — for every
decoded Basic payload and every source-password value of the form
`name:secret` with a colon-free name, the name is the text before the
first colon and the secret is everything after it (so the secret may
contain colons), while a non-empty value containing no colon yields no
credential pair, and the request is then rejected as unauthorized. -/
theorem credential_split_first_colon (name secret payload : List Char)
    (s : SrvState)
    (hn : (':' : Char) ∉ name) (hp : (':' : Char) ∉ payload)
    (hpe : payload ≠ []) (hidle : s.streamActive = false) :
    splitFirst ':' (name ++ ':' :: secret) = some (name, secret) ∧
    parseBasicAuth (some (name ++ ':' :: secret)) = some (name, secret) ∧
    extractCreds none (name ++ ':' :: secret) [] = some (name, secret) ∧
    splitFirst ':' payload = none ∧
    parseBasicAuth (some payload) = none ∧
    extractCreds none payload [] = none ∧
    (streamHandlerRun s none payload [] true).2
      = StreamResp.unauthorized := by
  have hsplit := splitFirst_name_secret secret name hn
  have hnone := splitFirst_no_sep ':' payload hp
  have hne : name ++ ':' :: secret ≠ [] := by
    intro hh
    exact absurd (List.append_eq_nil.1 hh).2 (fun hc => List.noConfusion hc)
  have hext : extractCreds none (name ++ ':' :: secret) []
      = some (name, secret) := by
    unfold extractCreds
    simp only [if_neg hne]
    exact hsplit
  have hextn : extractCreds none payload [] = none := by
    unfold extractCreds
    simp only [if_neg hpe]
    exact hnone
  refine ⟨hsplit, ?_, hext, hnone, ?_, hextn, ?_⟩
  · unfold parseBasicAuth
    exact hsplit
  · unfold parseBasicAuth
    exact hnone
  · have := unauthorized_no_state_change s none payload [] true hidle
      (Or.inl (by
        unfold parseBasicAuth
        exact hextn))
    rw [this]

theorem credential_split_first_colon_witness :
    (':' : Char) ∉ ['a'] ∧
    (':' : Char) ∉ ['x'] ∧
    (['x'] : List Char) ≠ [] ∧
    splitFirst ':' (['a'] ++ ':' :: ['b', ':', 'c'])
      = some (['a'], ['b', ':', 'c']) ∧
    extractCreds none (['a'] ++ ':' :: ['b', ':', 'c']) []
      = some (['a'], ['b', ':', 'c']) ∧
    splitFirst ':' ['x'] = none ∧
    extractCreds none ['x'] [] = none := by
  have hn : (':' : Char) ∉ ['a'] := by decide
  have hp : (':' : Char) ∉ ['x'] := by decide
  have hpe : (['x'] : List Char) ≠ [] := by decide
  have h := credential_split_first_colon ['a'] ['b', ':', 'c'] ['x']
    ⟨false, [], [], 0, [], false⟩ hn hp hpe rfl
  exact ⟨hn, hp, hpe, h.1, h.2.2.1, h.2.2.2.1, h.2.2.2.2.2.1⟩

/-- Embeds the decoded JSON verification response (NickServAuth,
`AuthResponse`): a `success` flag and an optional `message`
(`message = []` models an absent or empty field, as Go's zero value). -/
structure AuthResponse where
  success : Bool
  message : List Char
deriving DecidableEq

/-- Outcome of the outbound verification call: a transport failure of
`a.Client.Do`, or a response with its status code and the result of
decoding its body (`none` is a JSON decode failure). -/
inductive HttpResult
  | transportErr
  | response (status : Nat) (body : Option AuthResponse)
deriving DecidableEq

/-- Embeds `Authenticate` (NickServAuth client, lines 39-79) as a function
of the fallible steps: `marshalOk` and `reqOk` are the `json.Marshal` and
`http.NewRequest` error checks, `r` the call outcome.  The result is the
returned pair (valid, whether a non-nil error accompanies it).  Note the
source returns `(false, nil)` — false without an error — for a decoded
`success:false` with an empty message, and `(false, err)` when a message
is present; it never returns true unless the decoded `success` is true. -/
def Authenticate (marshalOk reqOk : Bool) (r : HttpResult) : Bool × Bool :=
  if marshalOk = false then (false, true)
  else if reqOk = false then (false, true)
  else
    match r with
    | .transportErr => (false, true)
    | .response status body =>
        if status ≠ 200 then (false, true)
        else
          match body with
          | none => (false, true)
          | some a =>
              if a.success = false ∧ a.message ≠ [] then (false, true)
              else (a.success, false)

/-- C8: `Authenticate` returns true only when the HTTP status is 200, the
body decodes, and the decoded `success` field is true; marshal failures,
transport errors, non-200 statuses and decode failures all return
`(false, error)`; and a decoded `success:false` always yields false —
never success. -/
theorem authenticate_fail_closed (m q : Bool) (st : Nat)
    (body : Option AuthResponse) (msg : List Char) (r : HttpResult)
    (hst : st ≠ 200) :
    ((Authenticate m q r).1 = true ↔
      (m = true ∧ q = true ∧
        ∃ a : AuthResponse,
          r = HttpResult.response 200 (some a) ∧ a.success = true)) ∧
    Authenticate m q HttpResult.transportErr = (false, true) ∧
    Authenticate true true (HttpResult.response st body) = (false, true) ∧
    Authenticate true true (HttpResult.response 200 none) = (false, true) ∧
    (Authenticate m q (HttpResult.response st (some ⟨false, msg⟩))).1
      = false ∧
    (Authenticate m q (HttpResult.response 200 (some ⟨false, msg⟩))).1
      = false := by
  have hval : ∀ (m2 q2 : Bool) (r2 : HttpResult),
      (Authenticate m2 q2 r2).1 = true ↔
      (m2 = true ∧ q2 = true ∧
        ∃ a : AuthResponse,
          r2 = HttpResult.response 200 (some a) ∧ a.success = true) := by
    intro m2 q2 r2
    constructor
    · intro h
      cases m2 with
      | false => simp [Authenticate] at h
      | true =>
        cases q2 with
        | false => simp [Authenticate] at h
        | true =>
          cases r2 with
          | transportErr => simp [Authenticate] at h
          | response st2 body2 =>
            by_cases h200 : st2 = 200
            · subst h200
              cases body2 with
              | none => simp [Authenticate] at h
              | some a =>
                refine ⟨rfl, rfl, a, rfl, ?_⟩
                cases hsa : a.success with
                | true => rfl
                | false =>
                  by_cases hm : a.message = []
                  · simp [Authenticate, hsa, hm] at h
                  · simp [Authenticate, hsa, hm] at h
            · simp [Authenticate, h200] at h
    · rintro ⟨hm, hq, a, hr, hs⟩
      subst hm
      subst hq
      subst hr
      simp [Authenticate, hs]
  have hsf : ∀ (m2 q2 : Bool) (st2 : Nat),
      (Authenticate m2 q2 (HttpResult.response st2 (some ⟨false, msg⟩))).1
        = false := by
    intro m2 q2 st2
    cases hv : (Authenticate m2 q2
        (HttpResult.response st2 (some ⟨false, msg⟩))).1 with
    | false => rfl
    | true =>
      obtain ⟨_, _, a, hr, hs⟩ := (hval m2 q2 _).1 hv
      injection hr with h1 h2
      injection h2 with h3
      rw [← h3] at hs
      exact absurd hs (by simp)
  refine ⟨hval m q r, ?_, ?_, ?_, hsf m q st, hsf m q 200⟩
  · cases m <;> cases q <;> simp [Authenticate]
  · simp [Authenticate, hst]
  · simp [Authenticate]

theorem authenticate_fail_closed_witness :
    (404 : Nat) ≠ 200 ∧
    Authenticate true true HttpResult.transportErr = (false, true) ∧
    Authenticate true true (HttpResult.response 404 none) = (false, true) ∧
    (Authenticate true true
      (HttpResult.response 200 (some ⟨false, []⟩))).1 = false := by
  have h := authenticate_fail_closed true true 404 none []
    HttpResult.transportErr (by decide)
  exact ⟨by decide, h.2.1, h.2.2.1, h.2.2.2.2.2⟩

/-- Embeds `strings.TrimSpace`: leading and trailing whitespace removed. -/
def goTrimSpace (s : List Char) : List Char :=
  ((s.dropWhile Char.isWhitespace).reverse.dropWhile Char.isWhitespace).reverse

/-- Embeds the `Config` struct of config.go. -/
structure Config where
  listenAddress : List Char
  authURL : List Char
  apiToken : List Char
deriving DecidableEq

/-- Embeds one iteration of `LoadConfig`'s scanner loop (config.go lines
39-61): trim, skip blank and comment lines, split on the first `=`, trim
key and value, assign the matching field. -/
def parseLine (cfg : Config) (line : List Char) : Config :=
  let l := goTrimSpace line
  if l = [] ∨ l.head? = some '#' then cfg
  else
    match splitFirst '=' l with
    | none => cfg
    | some (k, v) =>
        let key := goTrimSpace k
        let value := goTrimSpace v
        if key = "listen".toList then { cfg with listenAddress := value }
        else if key = "auth_url".toList then { cfg with authURL := value }
        else if key = "api_token".toList then { cfg with apiToken := value }
        else cfg

/-- The errors `LoadConfig` can return: the file open / scanner error path
(config.go lines 30-33 and 63-65) and the two validation errors (lines
70-75). -/
inductive ConfigError
  | readError
  | missingAuthURL
  | missingAPIToken
deriving DecidableEq

/-- The `cfg` accumulated over all lines of the file. -/
def parsedConfig (lines : List (List Char)) : Config :=
  lines.foldl parseLine ⟨[], [], []⟩

/-- Embeds `LoadConfig` (config.go lines 22-79) as a function of the file
contents: `none` models an unreadable file (open or scanner error).  On
success the returned `Config` is what the source assigns to the global
`AppConfig` (line 77). -/
def LoadConfig (file : Option (List (List Char))) :
    Except ConfigError Config :=
  match file with
  | none => .error .readError
  | some lines =>
      let cfg := parsedConfig lines
      let cfg2 := if cfg.listenAddress = []
        then { cfg with listenAddress := ":8000".toList } else cfg
      if cfg2.authURL = [] then .error .missingAuthURL
      else if cfg2.apiToken = [] then .error .missingAPIToken
      else .ok cfg2

/-- C9: `LoadConfig` succeeds even when the listen key is absent or empty,
defaulting the listen address to ":8000"; it errs exactly when the file is
unreadable or the parsed `auth_url` or `api_token` is empty; and on success
the returned configuration (the value stored into `AppConfig`) holds the
parsed values. -/
theorem loadConfig_spec (lines : List (List Char))
    (hau : (parsedConfig lines).authURL ≠ [])
    (hat : (parsedConfig lines).apiToken ≠ []) :
    LoadConfig none = Except.error ConfigError.readError ∧
    ((parsedConfig lines).listenAddress = [] →
      LoadConfig (some lines) = Except.ok
        { parsedConfig lines with listenAddress := ":8000".toList }) ∧
    ((parsedConfig lines).listenAddress ≠ [] →
      LoadConfig (some lines) = Except.ok (parsedConfig lines)) ∧
    ∀ lines2 : List (List Char),
      ((∃ c, LoadConfig (some lines2) = Except.ok c) ↔
        ((parsedConfig lines2).authURL ≠ []
          ∧ (parsedConfig lines2).apiToken ≠ [])) := by
  refine ⟨rfl, ?_, ?_, ?_⟩
  · intro hl
    simp only [LoadConfig]
    rw [if_pos hl]
    rw [if_neg hau, if_neg hat]
  · intro hl
    simp only [LoadConfig]
    rw [if_neg hl]
    rw [if_neg hau, if_neg hat]
  · intro lines2
    constructor
    · rintro ⟨c, hc⟩
      simp only [LoadConfig] at hc
      by_cases hl : (parsedConfig lines2).listenAddress = []
      · rw [if_pos hl] at hc
        by_cases ha : (parsedConfig lines2).authURL = []
        · rw [if_pos ha] at hc
          exact absurd hc (by simp)
        · rw [if_neg ha] at hc
          by_cases ht : (parsedConfig lines2).apiToken = []
          · rw [if_pos ht] at hc
            exact absurd hc (by simp)
          · exact ⟨ha, ht⟩
      · rw [if_neg hl] at hc
        by_cases ha : (parsedConfig lines2).authURL = []
        · rw [if_pos ha] at hc
          exact absurd hc (by simp)
        · rw [if_neg ha] at hc
          by_cases ht : (parsedConfig lines2).apiToken = []
          · rw [if_pos ht] at hc
            exact absurd hc (by simp)
          · exact ⟨ha, ht⟩
    · rintro ⟨ha, ht⟩
      simp only [LoadConfig]
      by_cases hl : (parsedConfig lines2).listenAddress = []
      · rw [if_pos hl, if_neg ha, if_neg ht]
        exact ⟨_, rfl⟩
      · rw [if_neg hl, if_neg ha, if_neg ht]
        exact ⟨_, rfl⟩

theorem loadConfig_spec_witness :
    (parsedConfig ["# comment".toList, "auth_url = u".toList,
        "api_token = t".toList]).authURL ≠ [] ∧
    (parsedConfig ["# comment".toList, "auth_url = u".toList,
        "api_token = t".toList]).apiToken ≠ [] ∧
    (parsedConfig ["# comment".toList, "auth_url = u".toList,
        "api_token = t".toList]).listenAddress = [] ∧
    LoadConfig (some ["# comment".toList, "auth_url = u".toList,
        "api_token = t".toList])
      = Except.ok { parsedConfig ["# comment".toList, "auth_url = u".toList,
          "api_token = t".toList] with listenAddress := ":8000".toList } := by
  have hau : (parsedConfig ["# comment".toList, "auth_url = u".toList,
      "api_token = t".toList]).authURL ≠ [] := by decide
  have hat : (parsedConfig ["# comment".toList, "auth_url = u".toList,
      "api_token = t".toList]).apiToken ≠ [] := by decide
  have hl : (parsedConfig ["# comment".toList, "auth_url = u".toList,
      "api_token = t".toList]).listenAddress = [] := by decide
  exact ⟨hau, hat, hl,
    (loadConfig_spec _ hau hat).2.1 hl⟩
